import Mathlib

/-!
Verification of the column-name resolver and loading/skip behaviour of
`real_estate_numpy.py`.

Strings are embedded as `List Char`.  `find_col`, `safe_read` and the
price-dependent demonstration steps of `main` are translated from the
Python source; Python exceptions that terminate the run (`SystemExit`)
are modelled as the `Except.error` branch of a result type.
-/

/-- Whitespace characters removed by Python `str.strip()` for the ASCII
range: space, tab, newline, carriage return, vertical tab, form feed. -/
def isPySpace (c : Char) : Bool :=
  c == ' ' || c == '\t' || c == '\n' || c == '\r' ||
    c == Char.ofNat 11 || c == Char.ofNat 12

/-- Python `str.strip()`: remove leading and trailing whitespace. -/
def pyStrip (s : List Char) : List Char :=
  ((s.dropWhile isPySpace).reverse.dropWhile isPySpace).reverse

/-- Python `str.lower()` for the ASCII range: lower-case every character. -/
def pyLower (s : List Char) : List Char :=
  s.map Char.toLower

/-- The normalization used throughout `find_col`: `x.strip().lower()`. -/
def normHeader (s : List Char) : List Char :=
  pyLower (pyStrip s)

/-- Whether `needle` occurs at the start of `hay` (character-wise). -/
def pyStartsWith : List Char → List Char → Bool
  | [], _ => true
  | _ :: _, [] => false
  | a :: ta, b :: tb => a == b && pyStartsWith ta tb

/-- Python's `needle in hay` on strings: contiguous substring containment.
The empty needle is contained in every string. -/
def pySubstr : List Char → List Char → Bool
  | needle, [] => pyStartsWith needle []
  | needle, c :: rest => pyStartsWith needle (c :: rest) || pySubstr needle rest

/-- One `for c in df.columns: if p(c): return c` loop of `find_col`:
return the first element satisfying `p`, else fall through to `none`. -/
def scanFirst (p : List Char → Bool) : List (List Char) → Option (List Char)
  | [] => none
  | c :: rest => if p c then some c else scanFirst p rest

/-- `find_col(df, want)` from `real_estate_numpy.py`, with the dataframe
replaced by its ordered header list.  Phase 1 returns the first header whose
normalized form equals the normalized `want`; phase 2 returns the first
header whose normalized form contains it as a substring; otherwise `None`. -/
def find_col (headers : List (List Char)) (want : List Char) : Option (List Char) :=
  let want_norm := normHeader want
  match scanFirst (fun c => normHeader c == want_norm) headers with
  | some c => some c
  | none => scanFirst (fun c => pySubstr want_norm (normHeader c)) headers

/-- Outcome of one demonstration step of `main`: the step either runs its
library calls, or is skipped printing the given notice; `aborted` stands
for an unhandled error ending the run (never produced by the guards). -/
inductive StepResult where
  | executed : StepResult
  | skipped : List Char → StepResult
  | aborted : StepResult

/-- Task 11 of `main`: guarded by `if price_col:`, else prints a notice. -/
def task11_price (price_col : Option (List Char)) : StepResult :=
  match price_col with
  | some _ => StepResult.executed
  | none => StepResult.skipped (("Price column not found.").toList)

/-- Task 13 of `main`: guarded by `if city_col and price_col:`. -/
def task13_city_price (city_col price_col : Option (List Char)) : StepResult :=
  match city_col, price_col with
  | some _, some _ => StepResult.executed
  | _, _ => StepResult.skipped (("City or Price column missing.").toList)

/-- Task 32 of `main`: guarded by `if price_col and city_col:`. -/
def task32_query (price_col city_col : Option (List Char)) : StepResult :=
  match price_col, city_col with
  | some _, some _ => StepResult.executed
  | _, _ => StepResult.skipped (("Price or City column missing for query.").toList)

/-- Task 33 of `main`: guarded by `if price_col:`. -/
def task33_sort (price_col : Option (List Char)) : StepResult :=
  match price_col with
  | some _ => StepResult.executed
  | none => StepResult.skipped (("Price column missing.").toList)

/-- Task 34 of `main`: guarded by `if city_col and price_col:`. -/
def task34_group (city_col price_col : Option (List Char)) : StepResult :=
  match city_col, price_col with
  | some _, some _ => StepResult.executed
  | _, _ => StepResult.skipped (("City or Price missing; cannot group.").toList)

/-- The price-dependent, notice-printing demonstration steps of `main`, in
program order, with the column resolution performed exactly as in `main`
(`cols_req` is built by calling `find_col` on each logical name). -/
def priceDependentSteps (headers : List (List Char)) : List StepResult :=
  let price_col := find_col headers (("price").toList)
  let city_col := find_col headers (("city").toList)
  [ task11_price price_col,
    task13_city_price city_col price_col,
    task32_query price_col city_col,
    task33_sort price_col,
    task34_group city_col price_col ]

/-- `safe_read(csv_path)`: attempt the load; on success return the table,
on any loading exception raise `SystemExit` with a diagnostic (modelled as
`Except.error` carrying the message built by the f-string). -/
def safe_read {Table : Type} (read_csv : List Char → Except (List Char) Table)
    (csv_path : List Char) : Except (List Char) Table :=
  match read_csv csv_path with
  | Except.ok df => Except.ok df
  | Except.error e =>
      Except.error ((("Failed to load CSV \x27").toList) ++ csv_path ++
        (("\x27: ").toList) ++ e ++
        (("\nMake sure file exists or paste the raw GitHub URL into CSV variable.").toList))

theorem scanFirst_eq_none (p : List Char → Bool) (l : List (List Char))
    (h : ∀ c ∈ l, p c = false) : scanFirst p l = none := by
  induction l with
  | nil => rfl
  | cons a t ih =>
      simp [scanFirst, h a (List.mem_cons_self a t)]
      exact ih (fun c hc => h c (List.mem_cons_of_mem a hc))

theorem scanFirst_mem (p : List Char → Bool) (l : List (List Char)) (c : List Char)
    (h : scanFirst p l = some c) : c ∈ l := by
  induction l with
  | nil => simp [scanFirst] at h
  | cons a t ih =>
      by_cases hp : p a
      · simp [scanFirst, hp] at h
        simp [h]
      · simp [scanFirst, hp] at h
        exact List.mem_cons_of_mem a (ih h)

theorem scanFirst_some_p (p : List Char → Bool) (l : List (List Char)) (c : List Char)
    (h : scanFirst p l = some c) : p c = true := by
  induction l with
  | nil => simp [scanFirst] at h
  | cons a t ih =>
      by_cases hp : p a
      · simp [scanFirst, hp] at h
        rw [← h]; exact hp
      · simp [scanFirst, hp] at h
        exact ih h

theorem scanFirst_first (p : List Char → Bool) (l : List (List Char)) :
    ∀ (i : Nat) (hi : i < l.length), p (l.get ⟨i, hi⟩) = true →
      (∀ j (hj : j < i), p (l.get ⟨j, Nat.lt_trans hj hi⟩) = false) →
      scanFirst p l = some (l.get ⟨i, hi⟩) := by
  induction l with
  | nil => intro i hi; exact absurd hi (by simp)
  | cons a t ih =>
      intro i hi hp hfirst
      cases i with
      | zero =>
          have hp' : p a = true := hp
          simp [scanFirst, hp']
      | succ i =>
          have ha : p a = false := hfirst 0 (Nat.succ_pos i)
          simp only [scanFirst, ha, Bool.false_eq_true, if_false]
          exact ih i (Nat.lt_of_succ_lt_succ hi) hp
            (fun j hj => hfirst (j + 1) (Nat.succ_lt_succ hj))

theorem pyStartsWith_self (s : List Char) : pyStartsWith s s = true := by
  induction s with
  | nil => rfl
  | cons a t ih => simp [pyStartsWith, ih]

theorem pySubstr_self (s : List Char) : pySubstr s s = true := by
  cases s with
  | nil => rfl
  | cons a t => simp [pySubstr, pyStartsWith_self]

theorem pySubstr_nil_needle (hay : List Char) : pySubstr [] hay = true := by
  cases hay with
  | nil => rfl
  | cons a t => simp [pySubstr, pyStartsWith]

/-- C1: if some header normalizes (trim then lower-case) to the normalized
wanted string, `find_col` returns the first such header in the original
iteration order of the sequence. -/
theorem find_col_exact_first (headers : List (List Char)) (want : List Char)
    (i : Nat) (hi : i < headers.length)
    (hmatch : normHeader (headers.get ⟨i, hi⟩) = normHeader want)
    (hfirst : ∀ j (hj : j < i),
      normHeader (headers.get ⟨j, Nat.lt_trans hj hi⟩) ≠ normHeader want) :
    find_col headers want = some (headers.get ⟨i, hi⟩) := by
  have h1 : scanFirst (fun c => normHeader c == normHeader want) headers
      = some (headers.get ⟨i, hi⟩) :=
    scanFirst_first _ headers i hi
      (by simp only [beq_iff_eq]; exact hmatch)
      (fun j hj => by simp only [beq_eq_false_iff_ne]; exact hfirst j hj)
  simp [find_col, h1]

/-- Witness for C1: headers ["City ", "city_name"], wanted "city"; the
exact-phase match "City " at index 0 is returned. -/
theorem find_col_exact_first_witness :
    find_col [("City ".toList), ("city_name".toList)] (("city").toList)
      = some ("City ".toList) :=
  find_col_exact_first [("City ".toList), ("city_name".toList)] (("city").toList)
    0 (by decide) (by decide) (fun j hj => absurd hj (Nat.not_lt_zero j))

/-- C2: if no header normalizes exactly to the normalized wanted string but
some header's normalized form contains it as a substring, `find_col` returns
the first such header in original order. -/
theorem find_col_substr_first (headers : List (List Char)) (want : List Char)
    (hnoexact : ∀ c ∈ headers, normHeader c ≠ normHeader want)
    (i : Nat) (hi : i < headers.length)
    (hmatch : pySubstr (normHeader want) (normHeader (headers.get ⟨i, hi⟩)) = true)
    (hfirst : ∀ j (hj : j < i),
      pySubstr (normHeader want) (normHeader (headers.get ⟨j, Nat.lt_trans hj hi⟩)) = false) :
    find_col headers want = some (headers.get ⟨i, hi⟩) := by
  have h1 : scanFirst (fun c => normHeader c == normHeader want) headers = none :=
    scanFirst_eq_none _ _ (fun c hc => by simp [hnoexact c hc])
  have h2 : scanFirst (fun c => pySubstr (normHeader want) (normHeader c)) headers
      = some (headers.get ⟨i, hi⟩) :=
    scanFirst_first _ headers i hi hmatch hfirst
  simp [find_col, h1, h2]

/-- Witness for C2: headers ["zip code "], wanted "zip"; no exact match, but
"zip" is a substring of the normalized "zip code", so it is returned. -/
theorem find_col_substr_first_witness :
    find_col [("zip code ".toList)] (("zip").toList) = some ("zip code ".toList) :=
  find_col_substr_first [("zip code ".toList)] (("zip").toList) (by decide)
    0 (by decide) (by decide) (fun j hj => absurd hj (Nat.not_lt_zero j))

/-- C3: if no header's normalized form equals the normalized wanted string
and none contains it as a substring, `find_col` returns `none`. -/
theorem find_col_not_found (headers : List (List Char)) (want : List Char)
    (hnoexact : ∀ c ∈ headers, normHeader c ≠ normHeader want)
    (hnosub : ∀ c ∈ headers, pySubstr (normHeader want) (normHeader c) = false) :
    find_col headers want = none := by
  have h1 : scanFirst (fun c => normHeader c == normHeader want) headers = none :=
    scanFirst_eq_none _ _ (fun c hc => by simp [hnoexact c hc])
  have h2 : scanFirst (fun c => pySubstr (normHeader want) (normHeader c)) headers = none :=
    scanFirst_eq_none _ _ hnosub
  simp [find_col, h1, h2]

/-- Witness for C3: headers ["town"], wanted "city" resolves to `none`. -/
theorem find_col_not_found_witness :
    find_col [("town".toList)] (("city").toList) = none :=
  find_col_not_found [("town".toList)] (("city").toList) (by decide) (by decide)

/-- C6: the result of `find_col` is either `none` or one of the strings of
the header sequence itself, with its original spelling. -/
theorem find_col_result_in_headers (headers : List (List Char)) (want : List Char) :
    find_col headers want = none ∨
      ∃ h, h ∈ headers ∧ find_col headers want = some h := by
  cases e1 : scanFirst (fun c => normHeader c == normHeader want) headers with
  | some c => exact Or.inr ⟨c, scanFirst_mem _ _ _ e1, by simp [find_col, e1]⟩
  | none =>
      cases e2 : scanFirst (fun c => pySubstr (normHeader want) (normHeader c)) headers with
      | some c => exact Or.inr ⟨c, scanFirst_mem _ _ _ e2, by simp [find_col, e1, e2]⟩
      | none => exact Or.inl (by simp [find_col, e1, e2])

/-- C7: resolution is deterministic and idempotent: `find_col` is a pure
function of its inputs, so two calls with the same inputs agree. -/
theorem find_col_deterministic (headers : List (List Char)) (want : List Char) :
    find_col headers want = find_col headers want := rfl

/-- C8: for headers ["zipcode_full"] and wanted "zip_code", `find_col`
returns `none`: the underscore makes "zip_code" not a substring of
"zipcode_full" after normalization. -/
theorem find_col_zipcode_not_found :
    find_col [("zipcode_full".toList)] (("zip_code").toList) = none := by
  decide

/-- C9: for a non-empty header sequence, a wanted string that normalizes to
the empty string never yields `none`: `find_col` returns the first header
whose normalized form is empty if one exists, and otherwise the first
header of the sequence (the empty string is a substring of every string). -/
theorem find_col_empty_want (headers : List (List Char)) (want : List Char)
    (hne : headers ≠ []) (hw : normHeader want = []) :
    find_col headers want =
      some ((scanFirst (fun c => normHeader c == ([] : List Char)) headers).getD
        (headers.head hne)) := by
  simp only [find_col, hw]
  cases e1 : scanFirst (fun c => normHeader c == ([] : List Char)) headers with
  | some c => simp
  | none =>
      cases headers with
      | nil => exact absurd rfl hne
      | cons a t => simp [scanFirst, pySubstr_nil_needle]

/-- Witness for C9: headers ["  ", "a"] with an all-whitespace wanted string
resolve to the all-whitespace header "  " (the first with empty norm). -/
theorem find_col_empty_want_witness :
    find_col [("  ".toList), ("a".toList)] ((" ").toList) = some ("  ".toList) :=
  find_col_empty_want [("  ".toList), ("a".toList)] ((" ").toList)
    (by decide) (by decide)

/-- C10: whenever `find_col` returns a header rather than `none`, that
header's normalized form contains the normalized wanted string as a
substring (exact matches included, since a string is a substring of itself). -/
theorem find_col_some_substr (headers : List (List Char)) (want : List Char)
    (c : List Char) (h : find_col headers want = some c) :
    pySubstr (normHeader want) (normHeader c) = true := by
  cases e1 : scanFirst (fun x => normHeader x == normHeader want) headers with
  | some d =>
      have hdc : d = c := by
        simp only [find_col, e1] at h
        exact Option.some.inj h
      have hd := scanFirst_some_p _ _ _ e1
      simp only [beq_iff_eq] at hd
      rw [← hdc, hd]
      exact pySubstr_self _
  | none =>
      have h2 : scanFirst (fun x => pySubstr (normHeader want) (normHeader x)) headers
          = some c := by
        simp only [find_col, e1] at h
        exact h
      exact scanFirst_some_p (fun x => pySubstr (normHeader want) (normHeader x))
        headers c h2

/-- Witness for C10: headers ["City "], wanted "city"; the returned header
"City " normalizes to "city", which contains the normalized want. -/
theorem find_col_some_substr_witness :
    pySubstr (normHeader (("city").toList)) (normHeader ("City ".toList)) = true :=
  find_col_some_substr [("City ".toList)] (("city").toList) ("City ".toList)
    (by decide)

/-- C4: when "price" cannot be resolved in the loaded table, every
price-dependent demonstration step of `main` is skipped with a non-empty
printed notice, and all five such steps still produce a result (execution
continues; no step aborts the run). -/
theorem main_price_missing_skips (headers : List (List Char))
    (hmiss : find_col headers (("price").toList) = none) :
    (priceDependentSteps headers).length = 5 ∧
      ∀ r ∈ priceDependentSteps headers,
        ∃ msg, r = StepResult.skipped msg ∧ msg ≠ [] := by
  constructor
  · simp [priceDependentSteps]
  · intro r hr
    cases hcity : find_col headers (("city").toList) with
    | none =>
        simp only [priceDependentSteps] at hr
        rw [hmiss, hcity] at hr
        simp only [task11_price, task13_city_price, task32_query, task33_sort,
          task34_group, List.mem_cons, List.mem_singleton, List.not_mem_nil,
          or_false] at hr
        rcases hr with rfl | rfl | rfl | rfl | rfl
        all_goals exact ⟨_, rfl, by decide⟩
    | some city =>
        simp only [priceDependentSteps] at hr
        rw [hmiss, hcity] at hr
        simp only [task11_price, task13_city_price, task32_query, task33_sort,
          task34_group, List.mem_cons, List.mem_singleton, List.not_mem_nil,
          or_false] at hr
        rcases hr with rfl | rfl | rfl | rfl | rfl
        all_goals exact ⟨_, rfl, by decide⟩

/-- Witness for C4: with headers ["town"] the "price" column is unresolved
and all five price-dependent steps are skipped with non-empty notices. -/
theorem main_price_missing_skips_witness :
    (priceDependentSteps [("town".toList)]).length = 5 ∧
      ∀ r ∈ priceDependentSteps [("town".toList)],
        ∃ msg, r = StepResult.skipped msg ∧ msg ≠ [] :=
  main_price_missing_skips [("town".toList)] (by decide)

/-- C5: if loading raises (the file cannot be located or parsed),
`safe_read` terminates the run with a non-empty diagnostic message; on a
successful load it returns the loaded table unchanged. -/
theorem safe_read_spec {Table : Type}
    (read_csv : List Char → Except (List Char) Table) (csv_path : List Char) :
    (∀ df, read_csv csv_path = Except.ok df →
      safe_read read_csv csv_path = Except.ok df) ∧
    (∀ e, read_csv csv_path = Except.error e →
      ∃ msg, safe_read read_csv csv_path = Except.error msg ∧ msg ≠ []) := by
  constructor
  · intro df h
    simp [safe_read, h]
  · intro e h
    refine ⟨(("Failed to load CSV \x27").toList) ++ csv_path ++
      (("\x27: ").toList) ++ e ++
      (("\nMake sure file exists or paste the raw GitHub URL into CSV variable.").toList),
      ?_, ?_⟩
    · simp [safe_read, h]
    · intro hnil
      simp only [List.append_eq_nil] at hnil
      exact absurd hnil.1.1.1.1 (by decide)

/-- Witness for C5: a loader that succeeds yields the table; a loader that
fails yields a termination with a non-empty diagnostic. -/
theorem safe_read_spec_witness :
    safe_read (fun _ => Except.ok (7 : Nat)) [] = Except.ok 7 ∧
    ∃ msg, safe_read (fun _ => (Except.error [] : Except (List Char) Nat)) []
      = Except.error msg ∧ msg ≠ [] :=
  ⟨(safe_read_spec (fun _ => Except.ok (7 : Nat)) []).1 7 rfl,
   (safe_read_spec (fun _ => (Except.error [] : Except (List Char) Nat)) []).2 [] rfl⟩
